import Mathlib

/-!
Shallow embedding of `src/cogs/points.py` (nu-esports-bot): the points
economy and pari-mutuel prediction market of the bot.

Modelling conventions:
* The `users` SQL table is a function `UserId → Option ℤ` (`none` = no row).
  `UPDATE users SET points = points ± p WHERE discordid = u` touches only an
  existing row; the `INSERT … ON CONFLICT DO UPDATE` upsert creates or adds.
* Python dicts (`option_a_points`, `option_b_points`, `points_buffer`,
  `self.predictions`) are association lists; `d.pop(k, 0)` / `d[k] = v` is
  key-removal followed by an append, matching dict key-uniqueness.
* Python ints are ℕ/ℤ; the float odds arithmetic of `update_embed` is done
  in ℚ (the division `sum_b / sum_a`), and Python `round` (banker's
  rounding, ties to even) is `pyRound`.
* `db.perform_many` executes the statement once per data row, in order.
-/

abbrev UserId := ℕ

/-- Table `users(discordid PK, points)`: `some p` when the row exists. -/
abbrev UsersTable := UserId → Option ℤ

/-- SQL `UPDATE users SET points = points + p WHERE discordid = u`:
adds to an existing row and is a no-op when the row is absent. -/
def sqlCredit (t : UsersTable) (p : ℤ) (u : UserId) : UsersTable :=
  fun v => if v = u then (t v).map (fun b => b + p) else t v

/-- SQL `UPDATE users SET points = points - p WHERE discordid = u`:
subtracts from an existing row and is a no-op when the row is absent. -/
def sqlDebit (t : UsersTable) (p : ℤ) (u : UserId) : UsersTable :=
  fun v => if v = u then (t v).map (fun b => b - p) else t v

/-- SQL `INSERT INTO users (discordid, points) VALUES (u, p)
ON CONFLICT (discordid) DO UPDATE SET points = users.points + EXCLUDED.points`:
creates the row at `p` when absent, otherwise adds `p`. -/
def sqlUpsertAdd (t : UsersTable) (u : UserId) (p : ℤ) : UsersTable :=
  fun v => if v = u then some ((t v).getD 0 + p) else t v

/-- One of the two per-option dicts `userId → points` of a `PredictionView`. -/
abbrev BetMap := List (UserId × ℕ)

/-- Python `dict` lookup: `m[u]` as an option (first entry with key `u`). -/
def lookupKey (m : BetMap) (u : UserId) : Option ℕ :=
  match m with
  | [] => none
  | e :: rest => if e.1 = u then some e.2 else lookupKey rest u

/-- `prev = m.pop(u, 0); m[u] = prev + p` in `modal_callback`: the cumulative
merge-add of a wager into a bet map. -/
def popInsert (m : BetMap) (u : UserId) (p : ℕ) : BetMap :=
  (m.filter (fun e => e.1 ≠ u)) ++ [(u, (lookupKey m u).getD 0 + p)]

/-- `sum(m.values())`: the total points pooled on one option. -/
def poolSum (m : BetMap) : ℕ :=
  (m.map Prod.snd).sum

/-- The keys of a bet map are pairwise distinct (true of every Python dict). -/
def keysNodup (m : BetMap) : Prop :=
  (m.map Prod.fst).Nodup

instance (m : BetMap) : Decidable (keysNodup m) := by
  unfold keysNodup; infer_instance

/-- `update_embed`: `self.odds_a = 1 + (sum(b.values()) / sum(a.values())) if
self.option_a_points else 1` — the conditional tests dict non-emptiness. -/
def viewOddsA (a b : BetMap) : ℚ :=
  if a ≠ [] then 1 + (poolSum b : ℚ) / (poolSum a : ℚ) else 1

/-- `update_embed`: `self.odds_b`, symmetric to `viewOddsA`. -/
def viewOddsB (a b : BetMap) : ℚ :=
  if b ≠ [] then 1 + (poolSum a : ℚ) / (poolSum b : ℚ) else 1

/-- Modelled from the spec: `OddsCalculator.multiplier(ownPool, oppositePool)`
returns `1` when `ownPool == 0`, else `1 + oppositePool/ownPool`.  The source
inlines this formula in `update_embed` (as `viewOddsA`/`viewOddsB`), guarding
on dict non-emptiness instead of a zero pool; stated separately to compare
the two. -/
def OddsCalculator.multiplier (ownPool oppositePool : ℚ) : ℚ :=
  if ownPool = 0 then 1 else 1 + oppositePool / ownPool

/-- Python `round` on an exact rational: round half to even. -/
def pyRound (q : ℚ) : ℤ :=
  if q - Int.floor q < 1/2 then Int.floor q
  else if (1 : ℚ)/2 < q - Int.floor q then Int.floor q + 1
  else if Int.floor q % 2 = 0 then Int.floor q else Int.floor q + 1

/-- Table `prediction_bets(prediction_id, user_id, option, points)` with
`UNIQUE(prediction_id, user_id)`: a row per key when present. -/
abbrev BetsTable := ℕ × UserId → Option (String × ℕ)

/-- `place_bet_db`: `INSERT INTO prediction_bets … ON CONFLICT
(prediction_id, user_id) DO UPDATE SET points = prediction_bets.points +
EXCLUDED.points` (the stored `option` is unchanged on conflict). -/
def place_bet_db (bets : BetsTable) (pid : ℕ) (uid : UserId) (opt : String)
    (p : ℕ) : BetsTable :=
  fun k =>
    if k = (pid, uid) then
      match bets (pid, uid) with
      | none => some (opt, p)
      | some prev => some (prev.1, prev.2 + p)
    else bets k

/-- In-memory state of a `PredictionView`: the two option labels, the two
bet dicts, the `locked` flag and the persisted `prediction_id`. -/
structure PredictionView where
  option_a : String
  option_b : String
  option_a_points : BetMap
  option_b_points : BetMap
  locked : Bool
  prediction_id : Option ℕ

/-- Combined state touched by one prediction market: the view, the `users`
table and the `prediction_bets` table. -/
structure MarketState where
  view : PredictionView
  users : UsersTable
  bets : BetsTable

/-- `PredictionView.modal_callback(user, points, option)`: merge the wager
into the dict for `option` (anything other than `option_a` falls to the
`else` branch, as in the source), debit the user's `users` row by `points`,
and, when `self.prediction_id` is truthy, upsert the `prediction_bets` row. -/
def modal_callback (s : MarketState) (uid : UserId) (points : ℕ)
    (option : String) : MarketState :=
  let v := s.view
  let view' :=
    if option = v.option_a then
      { v with option_a_points := popInsert v.option_a_points uid points }
    else
      { v with option_b_points := popInsert v.option_b_points uid points }
  let users' := sqlDebit s.users (points : ℤ) uid
  let bets' :=
    match v.prediction_id with
    | none => s.bets
    | some pid => if pid = 0 then s.bets else place_bet_db s.bets pid uid option points
  { view := view', users := users', bets := bets' }

/-- `PredictionView.lock_view`: set `locked` and disable both buttons (the
disabling is observable here as the `locked` flag that gates `placeBet`). -/
def lock_view (s : MarketState) : MarketState :=
  { s with view := { s.view with locked := true } }

/-- Outcome of one bet attempt, as the source rejects it: a press on a
disabled (locked) button never reaches the callback; `create_button`'s
callback rejects a side change; `PredictionModal.callback` rejects a
non-positive wager and a wager above the balance read at button time. -/
inductive BetError where
  | locked
  | sideConflict
  | nonPositiveWager
  | insufficientFunds
deriving DecidableEq

/-- The full bet flow for one user pressing the button labelled `label` and
submitting `wager`: button disabled when locked; `create_button`'s
side-conflict check (`label == option_a and uid in option_b_points`, or the
symmetric one); the modal's `points <= 0` and `user_points < points` checks
against `SELECT points FROM users` read as `result[0] if result else 0`;
on success `modal_callback`.  Returns the (possibly unchanged) state and
the rejection, if any. -/
def placeBet (s : MarketState) (uid : UserId) (label : String) (wager : ℕ) :
    MarketState × Option BetError :=
  if s.view.locked then (s, some .locked)
  else if (label = s.view.option_a ∧ (lookupKey s.view.option_b_points uid).isSome)
      ∨ (label = s.view.option_b ∧ (lookupKey s.view.option_a_points uid).isSome) then
    (s, some .sideConflict)
  else
    let user_points : ℤ := (s.users uid).getD 0
    if wager = 0 then (s, some .nonPositiveWager)
    else if user_points < (wager : ℤ) then (s, some .insufficientFunds)
    else (modal_callback s uid wager label, none)

/-- `points balance`: `points = result[0] if result else 0` — a missing
`users` row reads as 0 (the same read feeds the modal's available points). -/
def balance_points (t : UsersTable) (u : UserId) : ℤ :=
  (t u).getD 0

/-- `Prediction.refund_prediction`: credit every entry of both dicts back to
the `users` table, then `lock_view`. -/
def refund_prediction (s : MarketState) : MarketState :=
  let data := s.view.option_a_points ++ s.view.option_b_points
  let users' := data.foldl (fun t e => sqlCredit t (e.2 : ℤ) e.1) s.users
  lock_view { s with users := users' }

/-- `Prediction.complete_prediction(winner)`.  If either dict is empty,
refund every entry of both dicts (the wash case).  Otherwise credit each
winning-side bettor `round(points * payout)` where `payout` is the view's
odds for that side — `update_embed` recomputes `odds_a`/`odds_b` from the
pools after every bet, so at completion they equal `viewOddsA`/`viewOddsB`
of the current dicts.  Both branches end in `lock_view`. -/
def complete_prediction (s : MarketState) (winner : String) : MarketState :=
  let v := s.view
  if v.option_a_points = [] ∨ v.option_b_points = [] then
    let data := v.option_a_points ++ v.option_b_points
    let users' := data.foldl (fun t e => sqlCredit t (e.2 : ℤ) e.1) s.users
    lock_view { s with users := users' }
  else
    let payout :=
      if winner = v.option_a then viewOddsA v.option_a_points v.option_b_points
      else viewOddsB v.option_a_points v.option_b_points
    let data :=
      if winner = v.option_a then
        v.option_a_points.map (fun e => (e.1, pyRound ((e.2 : ℚ) * payout)))
      else
        v.option_b_points.map (fun e => (e.1, pyRound ((e.2 : ℚ) * payout)))
    let users' := data.foldl (fun t e => sqlCredit t e.2 e.1) s.users
    lock_view { s with users := users' }

/-- Python dict assignment `b[u] = p`: replace (not merge) the entry. -/
def dictSet (b : List (UserId × ℕ)) (u : UserId) (p : ℕ) : List (UserId × ℕ) :=
  (b.filter (fun e => e.1 ≠ u)) ++ [(u, p)]

/-- `dict.clear()`: drop every entry, whatever is in the dict. -/
def dictClear (_b : List (UserId × ℕ)) : List (UserId × ℕ) :=
  []

/-- State touched by the accrual loop: `self.points_buffer` and `users`. -/
structure AccrualState where
  points_buffer : List (UserId × ℕ)
  users : UsersTable

/-- `Points.on_message`: `self.points_buffer[user.id] = random.randint(7, 25)`
— an overwriting assignment of the drawn reward. -/
def on_message (s : AccrualState) (u : UserId) (reward : ℕ) : AccrualState :=
  ⟨dictSet s.points_buffer u reward, s.users⟩

/-- One run of `Points.update_points` during whose awaited `db.perform_many`
the `on_message` events `mid` are delivered (asyncio interleaves other
coroutines only at the `await`).  The source: early return on an empty
buffer; build `data` from the buffer; await the upsert of every `data` row;
then `self.points_buffer.clear()` — clearing the buffer as it stands after
the `mid` events, not merely the `data` snapshot. -/
def update_points_interleaved (s : AccrualState)
    (mid : List (UserId × ℕ)) : AccrualState :=
  if s.points_buffer = [] then s
  else
    let data := s.points_buffer
    let users' := data.foldl (fun t e => sqlUpsertAdd t e.1 (e.2 : ℤ)) s.users
    let bufferAfterAwait := mid.foldl (fun b e => dictSet b e.1 e.2) s.points_buffer
    ⟨dictClear bufferAfterAwait, users'⟩

/-- One row of `SELECT id, creator_id, title, option_a, option_b, status,
thread_id, message_id FROM predictions WHERE status IN ('active','locked')`
(the fields recovery branches on; the labels play no role in the claims
about recovery). -/
structure PredRow where
  id : ℕ
  creator_id : UserId
  status : String
  thread_id : ℕ
deriving DecidableEq

/-- State threaded through `Points.restore_predictions`: the `users` table,
the `predictions.status` column, and the in-memory registry
`self.predictions : creator_id → prediction` (here, the prediction's db id). -/
structure RecoveryState where
  users : UsersTable
  statuses : ℕ → String
  predictions : List (UserId × ℕ)

/-- `Points.refund_prediction_bets`: credit each `prediction_bets` row of the
prediction back to `users` (the early return on no bets coincides with the
empty fold). -/
def refund_prediction_bets (t : UsersTable)
    (bets : List (UserId × String × ℕ)) : UsersTable :=
  bets.foldl (fun t e => sqlCredit t (e.2.2 : ℤ) e.1) t

/-- One iteration of the `restore_predictions` loop.  `fetch` is
`bot.fetch_channel`: `none` means `NotFound`/`Forbidden` was raised, in which
case the bets are refunded, the status set to `refunded`, and the row is
skipped (`continue`) — never registered.  Otherwise the prediction is
rebuilt from its bets and registered under its creator
(`self.predictions[creator_id] = prediction`; the rebuilt view itself is
irrelevant to the registry/refund claims, so the registry records the db id). -/
def restore_one (fetch : ℕ → Option Unit)
    (betsFor : ℕ → List (UserId × String × ℕ))
    (s : RecoveryState) (row : PredRow) : RecoveryState :=
  match fetch row.thread_id with
  | none =>
      ⟨refund_prediction_bets s.users (betsFor row.id),
       fun i => if i = row.id then "refunded" else s.statuses i,
       s.predictions⟩
  | some _ =>
      ⟨s.users, s.statuses, dictSet s.predictions row.creator_id row.id⟩

/-- `Points.restore_predictions`: the loop over every restorable row. -/
def restore_predictions (fetch : ℕ → Option Unit)
    (betsFor : ℕ → List (UserId × String × ℕ))
    (s : RecoveryState) (rows : List PredRow) : RecoveryState :=
  rows.foldl (restore_one fetch betsFor) s

/-- A user's cumulative escrowed stake on one prediction, read off the
`prediction_bets` rows (the unique key makes this the single row's points). -/
def escrowedStake (betsFor : ℕ → List (UserId × String × ℕ))
    (pid : ℕ) (u : UserId) : ℤ :=
  (((betsFor pid).filter (fun e => e.1 = u)).map (fun e => (e.2.2 : ℤ))).sum

/-- Total refund a user is owed by one recovery pass: their escrowed stake
summed over every restorable prediction whose thread is unreachable. -/
def refundDue (fetch : ℕ → Option Unit)
    (betsFor : ℕ → List (UserId × String × ℕ))
    (rows : List PredRow) (u : UserId) : ℤ :=
  ((rows.filter (fun r => fetch r.thread_id = none)).map
    (fun r => escrowedStake betsFor r.id u)).sum

/-- `applyBets`: a sequence of accepted wagers `(user, points, option)`
delivered to `modal_callback` in order. -/
def applyBets (s : MarketState) (l : List (UserId × ℕ × String)) : MarketState :=
  l.foldl (fun s e => modal_callback s e.1 e.2.1 e.2.2) s

/-- A user's cumulative in-memory stake in one bet map (coincides with the
dict entry when keys are distinct). -/
def stakeSum (m : BetMap) (u : UserId) : ℤ :=
  ((m.filter (fun e => e.1 = u)).map (fun e => (e.2 : ℤ))).sum

/-! ### Helper lemmas about lookups, `popInsert` and credit folds -/

lemma creditFold_apply {α : Type} (key : α → UserId) (amt : α → ℤ) :
    ∀ (l : List α) (t : UsersTable) (u : UserId),
      (l.foldl (fun acc e => sqlCredit acc (amt e) (key e)) t) u
        = (t u).map (fun bal => bal + ((l.filter (fun e => key e = u)).map amt).sum) := by
  intro l
  induction l with
  | nil =>
    intro t u
    cases h : t u <;> simp [h]
  | cons e rest ih =>
    intro t u
    rw [List.foldl_cons, ih]
    by_cases hk : key e = u
    · rw [List.filter_cons_of_pos (by simpa using hk)]
      simp only [sqlCredit, hk, if_pos rfl, List.map_cons, List.sum_cons]
      cases h : t u <;> simp [h, add_assoc]
    · rw [List.filter_cons_of_neg (by simpa using hk)]
      have : sqlCredit t (amt e) (key e) u = t u := by
        have hne : ¬ u = key e := fun hh => hk hh.symm
        simp [sqlCredit, if_neg hne]
      rw [this]

lemma lookupKey_nil (u : UserId) : lookupKey [] u = none :=
  rfl

lemma lookupKey_cons (e : UserId × ℕ) (rest : BetMap) (u : UserId) :
    lookupKey (e :: rest) u = if e.1 = u then some e.2 else lookupKey rest u :=
  rfl

lemma lookupKey_append_some (l1 l2 : BetMap) (v : UserId) (p : ℕ)
    (h : lookupKey l1 v = some p) :
    lookupKey (l1 ++ l2) v = some p := by
  induction l1 with
  | nil => simp [lookupKey_nil] at h
  | cons e rest ih =>
    rw [List.cons_append, lookupKey_cons]
    rw [lookupKey_cons] at h
    by_cases he : e.1 = v
    · rw [if_pos he] at h ⊢
      exact h
    · rw [if_neg he] at h ⊢
      exact ih h

lemma lookupKey_append_none (l1 l2 : BetMap) (v : UserId)
    (h : lookupKey l1 v = none) :
    lookupKey (l1 ++ l2) v = lookupKey l2 v := by
  induction l1 with
  | nil => rfl
  | cons e rest ih =>
    by_cases he : e.1 = v
    · simp [lookupKey, he] at h
    · simp only [lookupKey, if_neg he] at h
      simp only [List.cons_append, lookupKey, if_neg he]
      exact ih h

lemma lookupKey_filter_self (m : BetMap) (u : UserId) :
    lookupKey (m.filter (fun e => e.1 ≠ u)) u = none := by
  induction m with
  | nil => rfl
  | cons e rest ih =>
    by_cases he : e.1 = u
    · rw [List.filter_cons_of_neg (by simpa using he)]
      exact ih
    · rw [List.filter_cons_of_pos (by simpa using he)]
      simp only [lookupKey, if_neg he]
      exact ih

lemma lookupKey_filter_other (m : BetMap) (u v : UserId) (h : v ≠ u) :
    lookupKey (m.filter (fun e => e.1 ≠ u)) v = lookupKey m v := by
  induction m with
  | nil => rfl
  | cons e rest ih =>
    by_cases he : e.1 = u
    · rw [List.filter_cons_of_neg (by simpa using he)]
      have hv : ¬ e.1 = v := fun hh => h (by rw [← hh]; exact he)
      rw [lookupKey_cons, if_neg hv]
      exact ih
    · rw [List.filter_cons_of_pos (by simpa using he)]
      rw [lookupKey_cons, lookupKey_cons]
      by_cases hv : e.1 = v
      · rw [if_pos hv, if_pos hv]
      · rw [if_neg hv, if_neg hv]
        exact ih

lemma lookupKey_popInsert_self (m : BetMap) (u : UserId) (p : ℕ) :
    lookupKey (popInsert m u p) u = some ((lookupKey m u).getD 0 + p) := by
  unfold popInsert
  rw [lookupKey_append_none _ _ _ (lookupKey_filter_self m u)]
  simp [lookupKey]

lemma lookupKey_popInsert_other (m : BetMap) (u v : UserId) (p : ℕ)
    (h : v ≠ u) :
    lookupKey (popInsert m u p) v = lookupKey m v := by
  unfold popInsert
  cases hl : lookupKey (m.filter (fun e => e.1 ≠ u)) v with
  | none =>
    rw [lookupKey_append_none _ _ _ hl]
    simp only [lookupKey, if_neg (fun hh : u = v => h hh.symm)]
    rw [← lookupKey_filter_other m u v h, hl]
  | some q =>
    rw [lookupKey_append_some _ _ _ _ hl]
    rw [← lookupKey_filter_other m u v h, hl]

lemma lookupKey_eq_none_of_not_mem (m : BetMap) (u : UserId)
    (h : u ∉ m.map Prod.fst) :
    lookupKey m u = none := by
  induction m with
  | nil => rfl
  | cons e rest ih =>
    simp only [List.map_cons, List.mem_cons, not_or] at h
    simp only [lookupKey, if_neg (fun hh : e.1 = u => h.1 hh.symm)]
    exact ih h.2

lemma filter_eq_nil_of_lookupKey_none (m : BetMap) (u : UserId)
    (h : lookupKey m u = none) :
    m.filter (fun e => e.1 = u) = [] := by
  induction m with
  | nil => rfl
  | cons e rest ih =>
    by_cases he : e.1 = u
    · simp [lookupKey, he] at h
    · simp only [lookupKey, if_neg he] at h
      rw [List.filter_cons_of_neg (by simpa using he)]
      exact ih h

lemma stakeSum_eq_zero_of_lookupKey_none (m : BetMap) (u : UserId)
    (h : lookupKey m u = none) :
    stakeSum m u = 0 := by
  unfold stakeSum
  rw [filter_eq_nil_of_lookupKey_none m u h]
  rfl

lemma filter_eq_single_of_nodup (m : BetMap) (u : UserId) (p : ℕ)
    (hn : keysNodup m) (h : lookupKey m u = some p) :
    m.filter (fun e => e.1 = u) = [(u, p)] := by
  induction m with
  | nil => simp [lookupKey] at h
  | cons e rest ih =>
    simp only [keysNodup, List.map_cons, List.nodup_cons] at hn
    by_cases he : e.1 = u
    · simp only [lookupKey, if_pos he] at h
      rw [List.filter_cons_of_pos (by simpa using he)]
      have hrest : lookupKey rest u = none := by
        apply lookupKey_eq_none_of_not_mem
        rw [← he]
        exact hn.1
      rw [filter_eq_nil_of_lookupKey_none rest u hrest]
      have : e = (u, p) := by
        cases h
        exact Prod.ext he rfl
      rw [this]
    · simp only [lookupKey, if_neg he] at h
      rw [List.filter_cons_of_neg (by simpa using he)]
      exact ih hn.2 h

lemma stakeSum_eq_lookupKey (m : BetMap) (u : UserId) (hn : keysNodup m) :
    stakeSum m u = ((lookupKey m u).getD 0 : ℕ) := by
  cases h : lookupKey m u with
  | none => simpa using stakeSum_eq_zero_of_lookupKey_none m u h
  | some p =>
    unfold stakeSum
    rw [filter_eq_single_of_nodup m u p hn h]
    simp

lemma keys_filter_comm (m : BetMap) (u : UserId) :
    (m.filter (fun e => e.1 ≠ u)).map Prod.fst
      = (m.map Prod.fst).filter (fun k => k ≠ u) := by
  induction m with
  | nil => rfl
  | cons e rest ih =>
    by_cases he : e.1 = u
    · rw [List.filter_cons_of_neg (by simpa using he), List.map_cons,
        List.filter_cons_of_neg (by simpa using he)]
      exact ih
    · rw [List.filter_cons_of_pos (by simpa using he), List.map_cons,
        List.map_cons, List.filter_cons_of_pos (by simpa using he)]
      rw [ih]

lemma keysNodup_popInsert (m : BetMap) (u : UserId) (p : ℕ)
    (hn : keysNodup m) :
    keysNodup (popInsert m u p) := by
  unfold keysNodup popInsert
  rw [List.map_append, keys_filter_comm]
  apply List.Nodup.append
  · exact List.Nodup.filter _ hn
  · simp
  · intro k hk hk2
    simp only [List.map_cons, List.map_nil, List.mem_singleton] at hk2
    rw [List.mem_filter] at hk
    simp [hk2] at hk

lemma stakeSum_append (l1 l2 : BetMap) (u : UserId) :
    stakeSum (l1 ++ l2) u = stakeSum l1 u + stakeSum l2 u := by
  unfold stakeSum
  rw [List.filter_append, List.map_append, List.sum_append]

lemma stakeSum_filter_ne (m : BetMap) (u v : UserId) (h : v ≠ u) :
    stakeSum (m.filter (fun e => e.1 ≠ u)) v = stakeSum m v := by
  induction m with
  | nil => rfl
  | cons e rest ih =>
    by_cases he : e.1 = u
    · rw [List.filter_cons_of_neg (by simpa using he)]
      have hv : ¬ e.1 = v := fun hh => h (by rw [← hh]; exact he)
      unfold stakeSum
      rw [List.filter_cons_of_neg (by simpa using hv)]
      exact ih
    · rw [List.filter_cons_of_pos (by simpa using he)]
      by_cases hv : e.1 = v
      · unfold stakeSum
        rw [List.filter_cons_of_pos (by simpa using hv),
          List.filter_cons_of_pos (by simpa using hv)]
        simp only [List.map_cons, List.sum_cons]
        have := ih
        unfold stakeSum at this
        rw [this]
      · unfold stakeSum
        rw [List.filter_cons_of_neg (by simpa using hv),
          List.filter_cons_of_neg (by simpa using hv)]
        exact ih

lemma stakeSum_single (u v : UserId) (x : ℕ) :
    stakeSum [(u, x)] v = if v = u then (x : ℤ) else 0 := by
  by_cases hv : v = u
  · subst hv
    simp [stakeSum]
  · unfold stakeSum
    rw [List.filter_cons_of_neg (by simpa using fun hh : u = v => hv hh.symm)]
    simp [hv]

lemma stakeSum_popInsert (m : BetMap) (u v : UserId) (p : ℕ)
    (hn : keysNodup m) :
    stakeSum (popInsert m u p) v
      = stakeSum m v + (if v = u then (p : ℤ) else 0) := by
  unfold popInsert
  rw [stakeSum_append, stakeSum_single]
  by_cases hv : v = u
  · subst hv
    rw [stakeSum_eq_zero_of_lookupKey_none _ _ (lookupKey_filter_self m v),
      stakeSum_eq_lookupKey m v hn]
    simp [if_pos rfl]
  · rw [stakeSum_filter_ne m u v hv]
    simp [hv]

/-! ### Projections of `modal_callback` -/

lemma modal_callback_users (s : MarketState) (uid : UserId) (p : ℕ)
    (opt : String) :
    (modal_callback s uid p opt).users = sqlDebit s.users (p : ℤ) uid := by
  simp only [modal_callback]

lemma modal_callback_option_a (s : MarketState) (uid : UserId) (p : ℕ)
    (opt : String) :
    (modal_callback s uid p opt).view.option_a = s.view.option_a := by
  simp only [modal_callback]
  split <;> rfl

lemma modal_callback_option_b (s : MarketState) (uid : UserId) (p : ℕ)
    (opt : String) :
    (modal_callback s uid p opt).view.option_b = s.view.option_b := by
  simp only [modal_callback]
  split <;> rfl

lemma modal_callback_prediction_id (s : MarketState) (uid : UserId) (p : ℕ)
    (opt : String) :
    (modal_callback s uid p opt).view.prediction_id = s.view.prediction_id := by
  simp only [modal_callback]
  split <;> rfl

lemma modal_callback_a_points (s : MarketState) (uid : UserId) (p : ℕ)
    (opt : String) :
    (modal_callback s uid p opt).view.option_a_points
      = if opt = s.view.option_a then popInsert s.view.option_a_points uid p
        else s.view.option_a_points := by
  simp only [modal_callback]
  split <;> rfl

lemma modal_callback_b_points (s : MarketState) (uid : UserId) (p : ℕ)
    (opt : String) :
    (modal_callback s uid p opt).view.option_b_points
      = if opt = s.view.option_a then s.view.option_b_points
        else popInsert s.view.option_b_points uid p := by
  simp only [modal_callback]
  split <;> rfl

lemma modal_callback_bets (s : MarketState) (uid : UserId) (p : ℕ)
    (opt : String) (pid : ℕ) (hpid : s.view.prediction_id = some pid)
    (hpid0 : pid ≠ 0) :
    (modal_callback s uid p opt).bets = place_bet_db s.bets pid uid opt p := by
  simp only [modal_callback, hpid]
  rw [if_neg hpid0]

/-! ### Claim theorems -/

lemma poolSum_ne_zero_of_pos (m : BetMap) (hm : ∀ e ∈ m, 0 < e.2)
    (hne : m ≠ []) : (poolSum m : ℚ) ≠ 0 := by
  cases m with
  | nil => exact absurd rfl hne
  | cons e rest =>
    have he := hm e (List.mem_cons_self e rest)
    have : poolSum (e :: rest) ≠ 0 := by
      unfold poolSum
      simp only [List.map_cons, List.sum_cons]
      omega
    exact_mod_cast this

lemma viewOddsA_eq_multiplier (a b : BetMap) (hapos : ∀ e ∈ a, 0 < e.2) :
    viewOddsA a b = OddsCalculator.multiplier (poolSum a : ℚ) (poolSum b : ℚ) := by
  unfold viewOddsA OddsCalculator.multiplier
  by_cases ha : a = []
  · subst ha
    simp [poolSum]
  · rw [if_pos ha, if_neg (poolSum_ne_zero_of_pos a hapos ha)]

lemma viewOddsB_eq_multiplier (a b : BetMap) (hbpos : ∀ e ∈ b, 0 < e.2) :
    viewOddsB a b = OddsCalculator.multiplier (poolSum b : ℚ) (poolSum a : ℚ) := by
  unfold viewOddsB OddsCalculator.multiplier
  by_cases hb : b = []
  · subst hb
    simp [poolSum]
  · rw [if_pos hb, if_neg (poolSum_ne_zero_of_pos b hbpos hb)]

/-- Claim C4: the displayed odds multiplier for a side is 1 when that side
has no pool (no bettors), and `1 + oppositePool/ownPool` otherwise; in
particular `multiplier 100 300 = 4` and `multiplier 0 b = 1` for every `b`.
Because every accepted wager is positive, a side's dict is non-empty exactly
when its pool is non-zero, so the source's non-emptiness guard in
`update_embed` agrees with the spec's `ownPool == 0` guard. -/
theorem odds_match_parimutuel_multiplier (a b : BetMap)
    (hapos : ∀ e ∈ a, 0 < e.2) (hbpos : ∀ e ∈ b, 0 < e.2) :
    viewOddsA a b = OddsCalculator.multiplier (poolSum a : ℚ) (poolSum b : ℚ) ∧
    viewOddsB a b = OddsCalculator.multiplier (poolSum b : ℚ) (poolSum a : ℚ) ∧
    OddsCalculator.multiplier 100 300 = 4 ∧
    (∀ q : ℚ, OddsCalculator.multiplier 0 q = 1) := by
  refine ⟨viewOddsA_eq_multiplier a b hapos, viewOddsB_eq_multiplier a b hbpos,
    by norm_num [OddsCalculator.multiplier], fun q => by simp [OddsCalculator.multiplier]⟩

/-- Witness for C4 at concrete pools 100 and 300 (and empty own side). -/
theorem odds_match_parimutuel_multiplier_witness :
    viewOddsA [(1, 100)] [(2, 300)]
      = OddsCalculator.multiplier (poolSum [(1, 100)] : ℚ) (poolSum [(2, 300)] : ℚ) ∧
    OddsCalculator.multiplier 100 300 = 4 := by
  have h := odds_match_parimutuel_multiplier [(1, 100)] [(2, 300)]
    (by decide) (by decide)
  exact ⟨h.1, h.2.2.1⟩

/-- Claim C2: `lock_view` (run by lock, by both branches of completion and
by refund) leaves the view locked, and a bet attempt against a locked view —
the buttons are constructed/disabled with the `locked` flag, so the press is
rejected before any callback runs — returns the state unchanged with a
`locked` rejection: no bet-map change, no debit. -/
theorem locked_prediction_rejects_bets (s : MarketState) (uid : UserId)
    (label : String) (wager : ℕ) (h : s.view.locked = true) :
    placeBet s uid label wager = (s, some BetError.locked) ∧
    (∀ t : MarketState, (lock_view t).view.locked = true) ∧
    (∀ (t : MarketState) (w : String), (complete_prediction t w).view.locked = true) ∧
    (∀ t : MarketState, (refund_prediction t).view.locked = true) := by
  refine ⟨?_, fun t => rfl, fun t w => ?_, fun t => rfl⟩
  · simp [placeBet, h]
  · simp only [complete_prediction]
    split <;> rfl

/-- Witness for C2 at a concrete locked market. -/
theorem locked_prediction_rejects_bets_witness :
    placeBet ⟨⟨"A", "B", [(1, 5)], [], true, some 1⟩, fun _ => some 10, fun _ => none⟩
        2 "A" 3
      = (⟨⟨"A", "B", [(1, 5)], [], true, some 1⟩, fun _ => some 10, fun _ => none⟩,
         some BetError.locked) :=
  (locked_prediction_rejects_bets _ 2 "A" 3 rfl).1

/-- Claim C8: a user holding a position on one option who presses the other
option's button is rejected (`tried to change sides...`) before the modal
opens: the state — bet maps, `users` balances and `prediction_bets` — is
returned unchanged, with a side-conflict rejection. -/
theorem side_conflict_rejected (s : MarketState) (uid : UserId) (wager : ℕ)
    (h : s.view.locked = false) :
    ((lookupKey s.view.option_b_points uid).isSome = true →
      placeBet s uid s.view.option_a wager = (s, some BetError.sideConflict)) ∧
    ((lookupKey s.view.option_a_points uid).isSome = true →
      placeBet s uid s.view.option_b wager = (s, some BetError.sideConflict)) := by
  constructor
  · intro hb
    unfold placeBet
    rw [if_neg (by simp [h]), if_pos (Or.inl ⟨rfl, hb⟩)]
  · intro ha
    unfold placeBet
    rw [if_neg (by simp [h]), if_pos (Or.inr ⟨rfl, ha⟩)]

/-- Witness for C8: user 1 holds a position on B and presses A. -/
theorem side_conflict_rejected_witness :
    placeBet ⟨⟨"A", "B", [], [(1, 50)], false, some 1⟩, fun _ => some 100, fun _ => none⟩
        1 "A" 10
      = (⟨⟨"A", "B", [], [(1, 50)], false, some 1⟩, fun _ => some 100, fun _ => none⟩,
         some BetError.sideConflict) :=
  (side_conflict_rejected _ 1 10 rfl).1 rfl

/-- Claim C10: a user with no `users` row reads a balance of 0 (`result[0]
if result else 0`) rather than failing, and the wager flow offers them 0
available points, so every positive wager is rejected as insufficient with
no state change. -/
theorem missing_row_reads_zero_and_rejects (s : MarketState) (uid : UserId)
    (label : String) (hrow : s.users uid = none)
    (hl : s.view.locked = false)
    (ha : lookupKey s.view.option_a_points uid = none)
    (hb : lookupKey s.view.option_b_points uid = none) :
    balance_points s.users uid = 0 ∧
    (∀ w : ℕ, 0 < w →
      placeBet s uid label w = (s, some BetError.insufficientFunds)) := by
  constructor
  · simp [balance_points, hrow]
  · intro w hw
    have hw0 : ¬ w = 0 := by omega
    have hlt : ((s.users uid).getD 0 : ℤ) < (w : ℤ) := by
      rw [hrow]
      simpa using hw
    simp [placeBet, hl, ha, hb, hw0, hlt]

/-- Witness for C10: user 9 has no row; a wager of 5 is rejected. -/
theorem missing_row_reads_zero_and_rejects_witness :
    balance_points (fun _ => none) 9 = 0 ∧
    placeBet ⟨⟨"A", "B", [], [], false, some 1⟩, fun _ => none, fun _ => none⟩
        9 "A" 5
      = (⟨⟨"A", "B", [], [], false, some 1⟩, fun _ => none, fun _ => none⟩,
         some BetError.insufficientFunds) := by
  have h := missing_row_reads_zero_and_rejects
    ⟨⟨"A", "B", [], [], false, some 1⟩, fun _ => none, fun _ => none⟩
    9 "A" rfl rfl rfl rfl
  exact ⟨h.1, h.2 5 (by omega)⟩

/-- Claim C1: two successive accepted wagers of `p1` and `p2` by the same
user on the same option of the same prediction merge into one cumulative
`BetLedger` entry of `p1 + p2` — both in the in-memory dict and in the
persisted `prediction_bets` row — while the other option's dict gains no
entry, and the user's balance is debited exactly `p1 + p2` in total,
each increment debited once. -/
theorem repeat_wager_merges_and_debits_sum (s : MarketState) (uid : UserId)
    (p1 p2 : ℕ) (opt : String) (pid : ℕ)
    (hpid : s.view.prediction_id = some pid) (hpid0 : pid ≠ 0)
    (ha : lookupKey s.view.option_a_points uid = none)
    (hb : lookupKey s.view.option_b_points uid = none)
    (hdb : s.bets (pid, uid) = none) :
    (opt = s.view.option_a →
      lookupKey (modal_callback (modal_callback s uid p1 opt) uid p2 opt).view.option_a_points uid
          = some (p1 + p2) ∧
      lookupKey (modal_callback (modal_callback s uid p1 opt) uid p2 opt).view.option_b_points uid
          = none) ∧
    (opt ≠ s.view.option_a →
      lookupKey (modal_callback (modal_callback s uid p1 opt) uid p2 opt).view.option_b_points uid
          = some (p1 + p2) ∧
      lookupKey (modal_callback (modal_callback s uid p1 opt) uid p2 opt).view.option_a_points uid
          = none) ∧
    (modal_callback (modal_callback s uid p1 opt) uid p2 opt).bets (pid, uid)
        = some (opt, p1 + p2) ∧
    (modal_callback (modal_callback s uid p1 opt) uid p2 opt).users uid
        = (s.users uid).map (fun bal => bal - ((p1 : ℤ) + (p2 : ℤ))) := by
  have hA1 := modal_callback_option_a s uid p1 opt
  have hpid1 : (modal_callback s uid p1 opt).view.prediction_id = some pid := by
    rw [modal_callback_prediction_id]
    exact hpid
  refine ⟨?_, ?_, ?_, ?_⟩
  · intro hopt
    constructor
    · rw [modal_callback_a_points, if_pos (by rw [hA1]; exact hopt),
        lookupKey_popInsert_self, modal_callback_a_points, if_pos hopt,
        lookupKey_popInsert_self, ha]
      simp [Nat.add_assoc]
    · rw [modal_callback_b_points, if_pos (by rw [hA1]; exact hopt),
        modal_callback_b_points, if_pos hopt]
      exact hb
  · intro hopt
    have hopt1 : ¬ opt = (modal_callback s uid p1 opt).view.option_a := by
      rw [hA1]
      exact hopt
    constructor
    · rw [modal_callback_b_points, if_neg hopt1,
        lookupKey_popInsert_self, modal_callback_b_points, if_neg hopt,
        lookupKey_popInsert_self, hb]
      simp [Nat.add_assoc]
    · rw [modal_callback_a_points, if_neg hopt1,
        modal_callback_a_points, if_neg hopt]
      exact ha
  · rw [modal_callback_bets _ uid p2 opt pid hpid1 hpid0,
      modal_callback_bets s uid p1 opt pid hpid hpid0]
    simp [place_bet_db, hdb]
  · rw [modal_callback_users, modal_callback_users]
    unfold sqlDebit
    simp only [if_pos rfl]
    cases hsu : s.users uid <;> simp [hsu, sub_sub]

/-- Market used to witness C1: a fresh prediction (db id 3), user 1 holding
500 points and no prior bets. -/
def c1ExampleState : MarketState :=
  ⟨⟨"A", "B", [], [], false, some 3⟩,
   fun u => if u = 1 then some 500 else none, fun _ => none⟩

/-- Witness for C1: wagers of 100 then 50 on option A by user 1 leave one
ledger entry of 150, one bets row of 150, and a balance of 500 - 150. -/
theorem repeat_wager_merges_and_debits_sum_witness :
    lookupKey (modal_callback (modal_callback c1ExampleState 1 100 "A") 1 50 "A").view.option_a_points 1
        = some 150 ∧
    (modal_callback (modal_callback c1ExampleState 1 100 "A") 1 50 "A").bets (3, 1)
        = some ("A", 150) ∧
    (modal_callback (modal_callback c1ExampleState 1 100 "A") 1 50 "A").users 1
        = some 350 := by
  have h := repeat_wager_merges_and_debits_sum c1ExampleState 1 100 50 "A" 3
    rfl (by omega) rfl rfl rfl
  refine ⟨by simpa using (h.1 rfl).1, by simpa using h.2.2.1, ?_⟩
  rw [h.2.2.2]
  decide

lemma creditBetMap_apply (m : BetMap) (t : UsersTable) (u : UserId) :
    (m.foldl (fun t e => sqlCredit t (e.2 : ℤ) e.1) t) u
      = (t u).map (fun bal => bal + stakeSum m u) := by
  rw [creditFold_apply (fun e => e.1) (fun e => ((e.2 : ℕ) : ℤ)) m t u]
  rfl

/-- Claim C5: completing a prediction in which either pool is empty is a
wash — every participant on either side is credited back exactly their
cumulative stake, and no payout multiplier enters the computation. -/
theorem complete_empty_pool_refunds (s : MarketState) (winner : String)
    (hdeg : s.view.option_a_points = [] ∨ s.view.option_b_points = []) :
    ∀ u, (complete_prediction s winner).users u
      = (s.users u).map (fun bal =>
          bal + stakeSum (s.view.option_a_points ++ s.view.option_b_points) u) := by
  intro u
  simp only [complete_prediction]
  rw [if_pos hdeg]
  exact creditBetMap_apply _ s.users u

/-- Witness for C5 at the spec's example: pool A empty, pool B = 150 held by
user 2, who ends with their 10 + the 150 refunded. -/
theorem complete_empty_pool_refunds_witness :
    (complete_prediction
        ⟨⟨"A", "B", [], [(2, 150)], false, some 1⟩,
         fun u => if u = 2 then some 10 else none, fun _ => none⟩ "A").users 2
      = some 160 := by
  have h := complete_empty_pool_refunds
    ⟨⟨"A", "B", [], [(2, 150)], false, some 1⟩,
     fun u => if u = 2 then some 10 else none, fun _ => none⟩ "A" (Or.inl rfl) 2
  rw [h]
  decide

lemma filter_map_fst (g : UserId × ℕ → ℤ) (m : BetMap) (u : UserId) :
    ((m.map (fun e => (e.1, g e))).filter (fun e => e.1 = u))
      = (m.filter (fun e => e.1 = u)).map (fun e => (e.1, g e)) := by
  induction m with
  | nil => rfl
  | cons e rest ih =>
    by_cases he : e.1 = u
    · rw [List.map_cons, List.filter_cons_of_pos (by simpa using he),
        List.filter_cons_of_pos (by simpa using he), List.map_cons, ih]
    · rw [List.map_cons, List.filter_cons_of_neg (by simpa using he),
        List.filter_cons_of_neg (by simpa using he), ih]

lemma payoutFold_apply (g : UserId × ℕ → ℤ) (m : BetMap) (t : UsersTable)
    (u : UserId) :
    ((m.map (fun e => (e.1, g e))).foldl (fun t e => sqlCredit t e.2 e.1) t) u
      = (t u).map (fun bal =>
          bal + (((m.filter (fun e => e.1 = u)).map (fun e => (e.1, g e))).map Prod.snd).sum) := by
  rw [creditFold_apply (fun e => e.1) (fun e : UserId × ℤ => e.2), filter_map_fst]

lemma payoutFold_winner (g : UserId × ℕ → ℤ) (m : BetMap) (t : UsersTable)
    (u : UserId) (p : ℕ) (hn : keysNodup m) (h : lookupKey m u = some p) :
    ((m.map (fun e => (e.1, g e))).foldl (fun t e => sqlCredit t e.2 e.1) t) u
      = (t u).map (fun bal => bal + g (u, p)) := by
  rw [payoutFold_apply, filter_eq_single_of_nodup m u p hn h]
  simp

lemma payoutFold_loser (g : UserId × ℕ → ℤ) (m : BetMap) (t : UsersTable)
    (u : UserId) (h : lookupKey m u = none) :
    ((m.map (fun e => (e.1, g e))).foldl (fun t e => sqlCredit t e.2 e.1) t) u
      = t u := by
  rw [payoutFold_apply, filter_eq_nil_of_lookupKey_none m u h]
  cases ht : t u <;> simp [ht]

/-- Claim C3: completing with both pools non-empty credits each bettor on
the winning side exactly `round(points * m)` — `m` the pari-mutuel
multiplier of the winning side computed from the pools at completion (the
view's odds, recomputed after every bet, equal that multiplier) — and
credits bettors absent from the winning side nothing. -/
theorem complete_pays_winners_by_multiplier (s : MarketState) (winner : String)
    (hA : s.view.option_a_points ≠ []) (hB : s.view.option_b_points ≠ [])
    (hnA : keysNodup s.view.option_a_points)
    (hnB : keysNodup s.view.option_b_points)
    (hposA : ∀ e ∈ s.view.option_a_points, 0 < e.2)
    (hposB : ∀ e ∈ s.view.option_b_points, 0 < e.2)
    (hab : s.view.option_a ≠ s.view.option_b) :
    (winner = s.view.option_a →
      (∀ u p, lookupKey s.view.option_a_points u = some p →
        (complete_prediction s winner).users u
          = (s.users u).map (fun bal => bal + pyRound ((p : ℚ) *
              OddsCalculator.multiplier (poolSum s.view.option_a_points : ℚ)
                (poolSum s.view.option_b_points : ℚ)))) ∧
      (∀ u, lookupKey s.view.option_a_points u = none →
        (complete_prediction s winner).users u = s.users u)) ∧
    (winner = s.view.option_b →
      (∀ u p, lookupKey s.view.option_b_points u = some p →
        (complete_prediction s winner).users u
          = (s.users u).map (fun bal => bal + pyRound ((p : ℚ) *
              OddsCalculator.multiplier (poolSum s.view.option_b_points : ℚ)
                (poolSum s.view.option_a_points : ℚ)))) ∧
      (∀ u, lookupKey s.view.option_b_points u = none →
        (complete_prediction s winner).users u = s.users u)) := by
  have hdeg : ¬ (s.view.option_a_points = [] ∨ s.view.option_b_points = []) := by
    rintro (h | h)
    · exact hA h
    · exact hB h
  constructor
  · intro hwin
    have hoddsA := viewOddsA_eq_multiplier s.view.option_a_points
      s.view.option_b_points hposA
    constructor
    · intro u p hu
      simp only [complete_prediction]
      rw [if_neg hdeg, if_pos hwin, if_pos hwin, hoddsA]
      exact payoutFold_winner
        (fun e => pyRound ((e.2 : ℚ) *
          OddsCalculator.multiplier (poolSum s.view.option_a_points : ℚ)
            (poolSum s.view.option_b_points : ℚ)))
        s.view.option_a_points s.users u p hnA hu
    · intro u hu
      simp only [complete_prediction]
      rw [if_neg hdeg, if_pos hwin, if_pos hwin]
      exact payoutFold_loser _ s.view.option_a_points s.users u hu
  · intro hwin
    have hwa : ¬ winner = s.view.option_a := by
      intro hh
      exact hab (hh ▸ hwin)
    have hoddsB := viewOddsB_eq_multiplier s.view.option_a_points
      s.view.option_b_points hposB
    constructor
    · intro u p hu
      simp only [complete_prediction]
      rw [if_neg hdeg, if_neg hwa, if_neg hwa, hoddsB]
      exact payoutFold_winner
        (fun e => pyRound ((e.2 : ℚ) *
          OddsCalculator.multiplier (poolSum s.view.option_b_points : ℚ)
            (poolSum s.view.option_a_points : ℚ)))
        s.view.option_b_points s.users u p hnB hu
    · intro u hu
      simp only [complete_prediction]
      rw [if_neg hdeg, if_neg hwa, if_neg hwa]
      exact payoutFold_loser _ s.view.option_b_points s.users u hu

/-- Market used to witness C3: pools A = 100 (user 1), B = 300 (user 2). -/
def c3ExampleState : MarketState :=
  ⟨⟨"A", "B", [(1, 100)], [(2, 300)], false, some 1⟩,
   fun u => if u = 1 then some 0 else if u = 2 then some 7 else none,
   fun _ => none⟩

/-- Witness for C3 at the spec's example: winner A pays user 1
`round(100 * 4.0) = 400`; user 2 is credited nothing. -/
theorem complete_pays_winners_by_multiplier_witness :
    (complete_prediction c3ExampleState "A").users 1 = some 400 ∧
    (complete_prediction c3ExampleState "A").users 2 = some 7 := by
  have h := complete_pays_winners_by_multiplier c3ExampleState "A"
    (by decide) (by decide) (by decide) (by decide) (by decide) (by decide)
    (by decide)
  constructor
  · rw [(h.1 rfl).1 1 100 rfl]
    have hm : OddsCalculator.multiplier
        (poolSum c3ExampleState.view.option_a_points : ℚ)
        (poolSum c3ExampleState.view.option_b_points : ℚ) = 4 := by
      norm_num [OddsCalculator.multiplier, poolSum, c3ExampleState]
    rw [hm]
    have hr : pyRound (((100 : ℕ) : ℚ) * 4) = 400 := by
      norm_num [pyRound]
    rw [hr]
    decide
  · rw [(h.1 rfl).2 2 rfl]
    decide

lemma modal_callback_nodup (s : MarketState) (uid : UserId) (p : ℕ)
    (opt : String) (hnA : keysNodup s.view.option_a_points)
    (hnB : keysNodup s.view.option_b_points) :
    keysNodup (modal_callback s uid p opt).view.option_a_points ∧
    keysNodup (modal_callback s uid p opt).view.option_b_points := by
  rw [modal_callback_a_points, modal_callback_b_points]
  by_cases h : opt = s.view.option_a
  · rw [if_pos h, if_pos h]
    exact ⟨keysNodup_popInsert _ _ _ hnA, hnB⟩
  · rw [if_neg h, if_neg h]
    exact ⟨hnA, keysNodup_popInsert _ _ _ hnB⟩

lemma refund_users_apply (s : MarketState) (u : UserId) :
    (refund_prediction s).users u
      = (s.users u).map (fun bal =>
          bal + stakeSum (s.view.option_a_points ++ s.view.option_b_points) u) := by
  simp only [refund_prediction]
  exact creditBetMap_apply _ s.users u

lemma refund_after_modal (s : MarketState) (uid : UserId) (p : ℕ)
    (opt : String) (hnA : keysNodup s.view.option_a_points)
    (hnB : keysNodup s.view.option_b_points) (u : UserId) :
    (refund_prediction (modal_callback s uid p opt)).users u
      = (refund_prediction s).users u := by
  rw [refund_users_apply, refund_users_apply, modal_callback_users,
    modal_callback_a_points, modal_callback_b_points]
  by_cases h : opt = s.view.option_a
  · rw [if_pos h, if_pos h, stakeSum_append, stakeSum_append,
      stakeSum_popInsert _ _ _ _ hnA]
    unfold sqlDebit
    by_cases hu : u = uid
    · subst hu
      rw [if_pos rfl, if_pos rfl]
      cases hsu : s.users u <;> simp [hsu]
      ring
    · rw [if_neg hu, if_neg hu]
      simp
  · rw [if_neg h, if_neg h, stakeSum_append, stakeSum_append,
      stakeSum_popInsert _ _ _ _ hnB]
    unfold sqlDebit
    by_cases hu : u = uid
    · subst hu
      rw [if_pos rfl, if_pos rfl]
      cases hsu : s.users u <;> simp [hsu]
      ring
    · rw [if_neg hu, if_neg hu]
      simp

lemma refund_applyBets (l : List (UserId × ℕ × String)) :
    ∀ s : MarketState, keysNodup s.view.option_a_points →
      keysNodup s.view.option_b_points → ∀ u : UserId,
        (refund_prediction (applyBets s l)).users u
          = (refund_prediction s).users u := by
  induction l with
  | nil =>
    intro s _ _ u
    rfl
  | cons e rest ih =>
    intro s hnA hnB u
    have hmods := modal_callback_nodup s e.1 e.2.1 e.2.2 hnA hnB
    have hstep : applyBets s (e :: rest)
        = applyBets (modal_callback s e.1 e.2.1 e.2.2) rest := rfl
    rw [hstep, ih _ hmods.1 hmods.2 u]
    exact refund_after_modal s e.1 e.2.1 e.2.2 hnA hnB u

/-- Claim C6: refunding after any sequence of accepted wagers placed on a
fresh prediction credits every bettor exactly their cumulative stake: each
user's `users` balance after the refund equals their balance before any of
the bets (a row that was absent stays absent: such a user can never have
wagered, both the debit and the credit being row-preserving updates). -/
theorem refund_restores_balances (s : MarketState)
    (l : List (UserId × ℕ × String))
    (ha : s.view.option_a_points = []) (hb : s.view.option_b_points = []) :
    ∀ u, (refund_prediction (applyBets s l)).users u = s.users u := by
  intro u
  have hna : keysNodup s.view.option_a_points := by
    rw [ha]
    simp [keysNodup]
  have hnb : keysNodup s.view.option_b_points := by
    rw [hb]
    simp [keysNodup]
  rw [refund_applyBets l s hna hnb u, refund_users_apply, ha, hb]
  cases hsu : s.users u <;> simp [hsu, stakeSum]

/-- Witness for C6 at the spec's example: bets u1:100 on A and u2:50 on B,
then refund; both balances return to their pre-bet values. -/
theorem refund_restores_balances_witness :
    (refund_prediction (applyBets
        ⟨⟨"A", "B", [], [], false, some 1⟩,
         fun u => if u = 1 then some 500 else if u = 2 then some 300 else none,
         fun _ => none⟩
        [(1, 100, "A"), (2, 50, "B")])).users 1 = some 500 ∧
    (refund_prediction (applyBets
        ⟨⟨"A", "B", [], [], false, some 1⟩,
         fun u => if u = 1 then some 500 else if u = 2 then some 300 else none,
         fun _ => none⟩
        [(1, 100, "A"), (2, 50, "B")])).users 2 = some 300 := by
  have h := refund_restores_balances
    ⟨⟨"A", "B", [], [], false, some 1⟩,
     fun u => if u = 1 then some 500 else if u = 2 then some 300 else none,
     fun _ => none⟩
    [(1, 100, "A"), (2, 50, "B")] rfl rfl
  exact ⟨by rw [h 1]; decide, by rw [h 2]; decide⟩

/-- Claim C7 fails on the code (a bug): `update_points` snapshots the buffer
into `data`, awaits the durable upsert, and then calls
`self.points_buffer.clear()` — clearing the whole dict, including entries
recorded during the in-flight await, not only the snapshot it read.
Concretely: the flush starts with user 1's pending 10; user 2's reward of
15 is recorded while the DB write is in flight; when the flush completes
the buffer is empty, user 2 has no `users` row, and the next flush (an
empty-buffer no-op) still leaves user 2 uncredited — the recorded entry is
silently dropped rather than surviving into the next flush. -/
theorem flush_drops_midflight_record :
    (update_points_interleaved
        ⟨[(1, 10)], fun u => if u = 1 then some 0 else none⟩
        [(2, 15)]).points_buffer = [] ∧
    (update_points_interleaved
        ⟨[(1, 10)], fun u => if u = 1 then some 0 else none⟩
        [(2, 15)]).users 1 = some 10 ∧
    (update_points_interleaved
        ⟨[(1, 10)], fun u => if u = 1 then some 0 else none⟩
        [(2, 15)]).users 2 = none ∧
    (update_points_interleaved (update_points_interleaved
        ⟨[(1, 10)], fun u => if u = 1 then some 0 else none⟩
        [(2, 15)]) []).users 2 = none := by
  refine ⟨rfl, by decide, by decide, by decide⟩

lemma nodup_map_inj {α β : Type} (f : α → β) :
    ∀ l : List α, (l.map f).Nodup →
      ∀ a, a ∈ l → ∀ b, b ∈ l → f a = f b → a = b := by
  intro l
  induction l with
  | nil =>
    intro _ a ha
    simp at ha
  | cons x rest ih =>
    intro hn a ha b hb hf
    rw [List.map_cons, List.nodup_cons] at hn
    rcases List.mem_cons.mp ha with ha1 | ha2 <;>
      rcases List.mem_cons.mp hb with hb1 | hb2
    · rw [ha1, hb1]
    · exfalso
      apply hn.1
      rw [ha1] at hf
      rw [hf]
      exact List.mem_map_of_mem f hb2
    · exfalso
      apply hn.1
      rw [hb1] at hf
      rw [← hf]
      exact List.mem_map_of_mem f ha2
    · exact ih hn.2 a ha2 b hb2 hf

lemma refund_prediction_bets_apply (t : UsersTable)
    (betsFor : ℕ → List (UserId × String × ℕ)) (pid : ℕ) (u : UserId) :
    refund_prediction_bets t (betsFor pid) u
      = (t u).map (fun bal => bal + escrowedStake betsFor pid u) := by
  unfold refund_prediction_bets escrowedStake
  rw [creditFold_apply (fun e => e.1) (fun e : UserId × String × ℕ => ((e.2.2 : ℕ) : ℤ))]

lemma restore_predictions_cons (fetch : ℕ → Option Unit)
    (betsFor : ℕ → List (UserId × String × ℕ)) (s : RecoveryState)
    (r : PredRow) (rest : List PredRow) :
    restore_predictions fetch betsFor s (r :: rest)
      = restore_predictions fetch betsFor (restore_one fetch betsFor s r) rest :=
  rfl

lemma restore_users_apply (fetch : ℕ → Option Unit)
    (betsFor : ℕ → List (UserId × String × ℕ)) :
    ∀ (rows : List PredRow) (s : RecoveryState) (u : UserId),
      (restore_predictions fetch betsFor s rows).users u
        = (s.users u).map (fun bal => bal + refundDue fetch betsFor rows u) := by
  intro rows
  induction rows with
  | nil =>
    intro s u
    cases h : s.users u <;> simp [restore_predictions, refundDue, h]
  | cons r rest ih =>
    intro s u
    rw [restore_predictions_cons, ih]
    cases hf : fetch r.thread_id with
    | none =>
      have hone : (restore_one fetch betsFor s r).users
          = refund_prediction_bets s.users (betsFor r.id) := by
        simp only [restore_one, hf]
      rw [hone, refund_prediction_bets_apply]
      have hdue : refundDue fetch betsFor (r :: rest) u
          = escrowedStake betsFor r.id u + refundDue fetch betsFor rest u := by
        unfold refundDue
        rw [List.filter_cons_of_pos (by simpa using hf)]
        simp
      rw [hdue]
      cases hsu : s.users u <;> simp [hsu]
      ring
    | some w =>
      have hone : (restore_one fetch betsFor s r).users = s.users := by
        simp only [restore_one, hf]
      have hdue : refundDue fetch betsFor (r :: rest) u
          = refundDue fetch betsFor rest u := by
        unfold refundDue
        rw [List.filter_cons_of_neg (by simp [hf])]
      rw [hone, hdue]

lemma restore_statuses_untouched (fetch : ℕ → Option Unit)
    (betsFor : ℕ → List (UserId × String × ℕ)) :
    ∀ (rows : List PredRow) (s : RecoveryState) (i : ℕ),
      i ∉ rows.map PredRow.id →
      (restore_predictions fetch betsFor s rows).statuses i = s.statuses i := by
  intro rows
  induction rows with
  | nil =>
    intro s i _
    rfl
  | cons r rest ih =>
    intro s i hi
    rw [List.map_cons, List.mem_cons, not_or] at hi
    rw [restore_predictions_cons, ih _ _ hi.2]
    cases hf : fetch r.thread_id with
    | none =>
      simp only [restore_one, hf]
      rw [if_neg hi.1]
    | some w =>
      simp only [restore_one, hf]

lemma restore_status_refunded (fetch : ℕ → Option Unit)
    (betsFor : ℕ → List (UserId × String × ℕ)) (row : PredRow)
    (hunr : fetch row.thread_id = none) :
    ∀ (rows : List PredRow) (s : RecoveryState), row ∈ rows →
      (rows.map PredRow.id).Nodup →
      (restore_predictions fetch betsFor s rows).statuses row.id = "refunded" := by
  intro rows
  induction rows with
  | nil =>
    intro s hmem
    simp at hmem
  | cons r rest ih =>
    intro s hmem hn
    rw [List.map_cons, List.nodup_cons] at hn
    rcases List.mem_cons.mp hmem with h1 | h2
    · subst h1
      rw [restore_predictions_cons,
        restore_statuses_untouched fetch betsFor rest _ row.id hn.1]
      simp only [restore_one, hunr]
      simp
    · rw [restore_predictions_cons]
      exact ih _ h2 hn.2

lemma mem_dictSet (b : List (UserId × ℕ)) (c : UserId) (i : ℕ)
    (e : UserId × ℕ) (h : e ∈ dictSet b c i) : e ∈ b ∨ e = (c, i) := by
  unfold dictSet at h
  rcases List.mem_append.mp h with h1 | h2
  · exact Or.inl (List.mem_of_mem_filter h1)
  · simp at h2
    exact Or.inr h2

lemma restore_registry_mem (fetch : ℕ → Option Unit)
    (betsFor : ℕ → List (UserId × String × ℕ)) :
    ∀ (rows : List PredRow) (s : RecoveryState) (e : UserId × ℕ),
      e ∈ (restore_predictions fetch betsFor s rows).predictions →
      e ∈ s.predictions ∨
        ∃ r, r ∈ rows ∧ fetch r.thread_id ≠ none ∧ e.2 = r.id := by
  intro rows
  induction rows with
  | nil =>
    intro s e he
    exact Or.inl he
  | cons r rest ih =>
    intro s e he
    rw [restore_predictions_cons] at he
    rcases ih _ e he with h1 | ⟨r2, hr2, hf2, hid2⟩
    · cases hf : fetch r.thread_id with
      | none =>
        simp only [restore_one, hf] at h1
        exact Or.inl h1
      | some w =>
        simp only [restore_one, hf] at h1
        rcases mem_dictSet _ _ _ _ h1 with hin | heq
        · exact Or.inl hin
        · refine Or.inr ⟨r, List.mem_cons_self r rest, by simp [hf], ?_⟩
          rw [heq]
    · exact Or.inr ⟨r2, List.mem_cons_of_mem r hr2, hf2, hid2⟩

/-- Claim C9: recovery over the restorable (active/locked) predictions,
starting from the empty registry, (i) credits every user the full escrowed
stake of each prediction whose thread is unreachable, (ii) marks each such
prediction `refunded`, and (iii) registers no entry for it in the registry. -/
theorem recovery_unreachable_refunds_and_skips (fetch : ℕ → Option Unit)
    (betsFor : ℕ → List (UserId × String × ℕ)) (rows : List PredRow)
    (row : PredRow) (users0 : UsersTable) (statuses0 : ℕ → String)
    (hmem : row ∈ rows) (hids : (rows.map PredRow.id).Nodup)
    (_hst : row.status = "active" ∨ row.status = "locked")
    (hunr : fetch row.thread_id = none) :
    (∀ u, (restore_predictions fetch betsFor ⟨users0, statuses0, []⟩ rows).users u
        = (users0 u).map (fun bal => bal + refundDue fetch betsFor rows u)) ∧
    (restore_predictions fetch betsFor ⟨users0, statuses0, []⟩ rows).statuses row.id
        = "refunded" ∧
    (∀ e ∈ (restore_predictions fetch betsFor ⟨users0, statuses0, []⟩ rows).predictions,
      e.2 ≠ row.id) := by
  refine ⟨fun u => restore_users_apply fetch betsFor rows _ u,
    restore_status_refunded fetch betsFor row hunr rows _ hmem hids, ?_⟩
  intro e he heq
  rcases restore_registry_mem fetch betsFor rows _ e he with h1 | ⟨r, hr, hrf, hre⟩
  · simp at h1
  · have : r = row :=
      nodup_map_inj PredRow.id rows hids r hr row hmem (hre.symm.trans heq)
    rw [this] at hrf
    exact hrf hunr

/-- Thread resolver used to witness C9: thread 5 is unreachable. -/
def c9Fetch : ℕ → Option Unit :=
  fun t => if t = 5 then none else some ()

/-- Bets used to witness C9: prediction 1 holds 100 from user 7 on A and
50 from user 8 on B. -/
def c9BetsFor : ℕ → List (UserId × String × ℕ) :=
  fun pid => if pid = 1 then [(7, "A", 100), (8, "B", 50)] else []

/-- Witness for C9: a locked prediction (id 1, thread 5, unreachable) and an
active one (id 2, thread 6, reachable); recovery refunds user 7's 100
(60 → 160) and marks prediction 1 refunded. -/
theorem recovery_unreachable_refunds_and_skips_witness :
    (restore_predictions c9Fetch c9BetsFor
        ⟨fun u => if u = 7 then some 60 else if u = 8 then some 0 else none,
         fun _ => "locked", []⟩
        [⟨1, 10, "locked", 5⟩, ⟨2, 11, "active", 6⟩]).users 7 = some 160 ∧
    (restore_predictions c9Fetch c9BetsFor
        ⟨fun u => if u = 7 then some 60 else if u = 8 then some 0 else none,
         fun _ => "locked", []⟩
        [⟨1, 10, "locked", 5⟩, ⟨2, 11, "active", 6⟩]).statuses 1 = "refunded" := by
  have h := recovery_unreachable_refunds_and_skips c9Fetch c9BetsFor
    [⟨1, 10, "locked", 5⟩, ⟨2, 11, "active", 6⟩] ⟨1, 10, "locked", 5⟩
    (fun u => if u = 7 then some 60 else if u = 8 then some 0 else none)
    (fun _ => "locked")
    (List.mem_cons_self _ _) (by decide) (Or.inr rfl) (by decide)
  refine ⟨?_, h.2.1⟩
  rw [h.1 7]
  decide
